import Mathlib

/-!
Verification development for the SRU++ transducer streaming extension
(`experiments/e2e_asr/extension.py`).

The embedding works at the granularity of the time axis: a sequence chunk is a
`List` of per-timestep slices (each slice abstracts the batch × feature content
of one timestep), linear layers are per-timestep functions mapped over the
list, and the attention combination per ready timestep is an abstract function
of the query slice, the full key/value histories and the (optional) mask row.
Dropout is modelled as the identity (inference mode), matching the streaming
use case the incremental-state protocol exists for.

Incremental state mirrors the Python `Dict[str, Dict[str, Optional[Tensor]]]`:
an insertion-ordered association list whose inner slots hold `Option` values
(`some none` models a key that is present but bound to Python `None`).
-/

namespace SRUpp

/-- Error taxonomy of the module: Python `assert` failures, the two shape
`ValueError`s raised in `SRUppTransducerAttention.forward`, the input
dimensionality `ValueError` of `SRUppTransducerCell.forward`, and the
construction-time divisibility `ValueError`. -/
inductive Err where
  | assertion
  | attnMaskShape
  | maskPadShape
  | inputDim
  | divisibility
  deriving DecidableEq, Repr

/-- Lookup in a Python-style insertion-ordered dictionary. -/
def dictGet {v : Type} (d : List (String × v)) (k : String) : Option v :=
  match d with
  | [] => none
  | (k', x) :: rest => if k' = k then some x else dictGet rest k

/-- Insertion / in-place update in a Python-style dictionary: replaces the
binding in place when the key is present, otherwise appends it, preserving
insertion order exactly as CPython does. -/
def dictSet {v : Type} (d : List (String × v)) (k : String) (x : v) :
    List (String × v) :=
  match d with
  | [] => [(k, x)]
  | (k', y) :: rest => if k' = k then (k, x) :: rest else (k', y) :: dictSet rest k x

/-- Inner per-module state dictionary: slot name ↦ optional tensor. The
tensor here is the time axis: a list of per-timestep slices of type `β`.
`some none` models a slot that exists but holds Python `None`. -/
abbrev StateDict (β : Type) := List (String × Option (List β))

/-- Outer incremental-state dictionary (`incremental_state` in the source):
module key ↦ inner state dictionary. Only the key `"attn_state"` is ever
used by these modules. -/
abbrev IncState (β : Type) := List (String × StateDict β)

/-- Read a slot of the `"attn_state"` record of an incremental state. -/
def getSlot {β : Type} (inc : IncState β) (name : String) : Option (Option (List β)) :=
  dictGet ((dictGet inc "attn_state").getD []) name

/-- Truth of "this slot of the attention state holds an actual tensor"
(present and non-null). -/
def slotStoredB {β : Type} (inc : IncState β) (name : String) : Bool :=
  match getSlot inc name with
  | some (some _) => true
  | _ => false

/-- Time-length of the tensor a slot stores, when it stores one. -/
def storedLen {β : Type} (inc : IncState β) (name : String) : Option Nat :=
  match getSlot inc name with
  | some (some l) => some l.length
  | _ => none

/-- Python index normalization for a slice bound: a negative index counts from
the end (clamped at 0), a non-negative one is clamped at the length. -/
def pyIdx (len : Nat) (i : Int) : Nat :=
  if i < 0 then ((len : Int) + i).toNat else min i.toNat len

/-- Python slice `l[start:stop]` on the row axis (step 1), with Python's
normalization of negative and out-of-range bounds. -/
def pySliceRows {μ : Type} (l : List μ) (start stop : Int) : List μ :=
  (l.take (pyIdx l.length stop)).drop (pyIdx l.length start)

/-! ## Linear transform variant (`SRUppTransducerLinear`) -/

/-- Configuration and weights of `SRUppTransducerLinear`: `linear1` projects an
input slice to the `proj_features` space `β`, the optional layer norm acts on
`β`, and `linear2` projects to the `out_features` space `γ`.  `rightWindow`
is the look-ahead window size. -/
structure LinearCfg (α β γ : Type) where
  linear1 : α → β
  layerNorm : Option (β → β)
  linear2 : β → γ
  rightWindow : Nat

/-- Post-cursor pipeline of the linear variant applied to one timestep:
optional layer norm, dropout (identity in inference), final projection.
Mirrors `q = self.layer_norm(q); output = self.linear2(self.dropout(q))`. -/
def linPost {α β γ : Type} (cfg : LinearCfg α β γ) (b : β) : γ :=
  match cfg.layerNorm with
  | some f => cfg.linear2 (f b)
  | none => cfg.linear2 b

/-- Forward method of `SRUppTransducerLinear` (source lines 281–324).
`mask_pad` rows live in `π`, `attn_mask` rows in `μ` (both unused by this
variant except for the streaming-mode assertion, exactly as in the source). -/
def linearForward {α β γ μ π : Type} (cfg : LinearCfg α β γ) (input : List α)
    (mask_pad : Option (List π)) (_attn_mask : Option (List μ)) :
    Option (IncState β) → Except Err (List γ × Option (IncState β))
  | none =>
      .ok ((input.map cfg.linear1).map (linPost cfg), none)
  | some inc =>
      -- `assert mask_pad is None`
      if mask_pad.isSome then .error .assertion else
      let q := input.map cfg.linear1
      let st := (dictGet inc "attn_state").getD []
      let allqE : Except Err (List β) :=
        match dictGet st "saved_query" with
        | none => .ok q
        | some none => .error .assertion     -- `assert saved_query is not None`
        | some (some s) => .ok (s ++ q)
      match allqE with
      | .error e => .error e
      | .ok allq =>
          let numReady := allq.length - cfg.rightWindow
          let ready := allq.take numReady
          let notReady := allq.drop numReady
          let st' := dictSet st "saved_query" (some notReady)
          let inc' := dictSet inc "attn_state" st'
          .ok (ready.map (linPost cfg), some inc')

end SRUpp

namespace SRUpp

/-! ## Attention transform variant (`SRUppTransducerAttention`) -/

/-- Configuration and weights of `SRUppTransducerAttention` at the time-axis
granularity.  `linear2k`/`linear2v` are the two halves of `linear2`'s output
(`chunk(2, dim=-1)`); `combine` abstracts the per-timestep scaled dot-product
attention: given the (possibly pre-normalized) query slice, the full key and
value histories, the optional additive-mask row for that timestep and the
optional pad mask, it yields the attention result slice. `rezero` abstracts
`attn_output * alpha + residual`, and `linear3` the final projection. -/
structure AttnCfg (α β γ μ π : Type) where
  linear1 : α → β
  layerNorm : Option (β → β)
  normalizeAfter : Bool
  linear2k : β → β
  linear2v : β → β
  combine : β → List β → List β → Option μ → Option (List π) → β
  rezero : β → β → β
  linear3 : β → γ
  rightWindow : Nat

/-- Construction-time validation of `SRUppTransducerAttention.__init__`
(source lines 76–79): `proj_features` must be divisible by `num_heads`. -/
def attnInitCheck (proj_features num_heads : Nat) : Except Err Unit :=
  if proj_features % num_heads ≠ 0 then .error .divisibility else .ok ()

/-- Pre-layer-norm step (source lines 148–149): applied to the query only when
a layer norm exists and `normalize_after` is false; the residual keeps the
un-normalized value. -/
def preNormApply {α β γ μ π : Type} (cfg : AttnCfg α β γ μ π) (q : List β) : List β :=
  match cfg.layerNorm, cfg.normalizeAfter with
  | some f, false => q.map f
  | _, _ => q

/-- Per-timestep tail of the attention forward (source lines 214–219):
rezero residual combination, optional post layer norm, dropout (identity in
inference) and final projection. -/
def postRow {α β γ μ π : Type} (cfg : AttnCfg α β γ μ π) (a r : β) : γ :=
  let y := cfg.rezero a r
  match cfg.layerNorm, cfg.normalizeAfter with
  | some f, true => cfg.linear3 (f y)
  | _, _ => cfg.linear3 y

/-- Attention computation rows (source lines 175–212): each (normalized) ready
query attends over the full key/value histories; when an additive mask is
present its row for the same target timestep is supplied. -/
def attnRows {α β γ μ π : Type} (cfg : AttnCfg α β γ μ π) (q : List β)
    (ks vs : List β) (am : Option (List μ)) (mp : Option (List π)) : List β :=
  match am with
  | none => q.map (fun qt => cfg.combine qt ks vs none mp)
  | some m => (q.zip m).map (fun p => cfg.combine p.1 ks vs (some p.2) mp)

/-- Forward method of `SRUppTransducerAttention` (source lines 96–220),
non-streaming and streaming paths. -/
def attnForward {α β γ μ π : Type} (cfg : AttnCfg α β γ μ π) (input : List α)
    (mask_pad : Option (List π)) (attn_mask : Option (List μ)) :
    Option (IncState β) → Except Err (List γ × Option (IncState β))
  | none =>
      let q := input.map cfg.linear1
      let residual := q
      let tgt_len := input.length
      let src_len := input.length
      let qn := preNormApply cfg q
      let k := qn.map cfg.linear2k
      let v := qn.map cfg.linear2v
      match attn_mask with
      | some m =>
          if m.length ≠ tgt_len then .error .attnMaskShape else
          match mask_pad with
          | some p =>
              if p.length ≠ src_len then .error .maskPadShape else
              .ok (((attnRows cfg qn k v (some m) (some p)).zip residual).map
                    (fun r => postRow cfg r.1 r.2), none)
          | none =>
              .ok (((attnRows cfg qn k v (some m) none).zip residual).map
                    (fun r => postRow cfg r.1 r.2), none)
      | none =>
          match mask_pad with
          | some p =>
              if p.length ≠ src_len then .error .maskPadShape else
              .ok (((attnRows cfg qn k v none (some p)).zip residual).map
                    (fun r => postRow cfg r.1 r.2), none)
          | none =>
              .ok (((attnRows cfg qn k v none none).zip residual).map
                    (fun r => postRow cfg r.1 r.2), none)
  | some inc =>
      -- `assert mask_pad is None`
      if mask_pad.isSome then .error .assertion else
      let q := input.map cfg.linear1
      let st := (dictGet inc "attn_state").getD []
      let allqE : Except Err (List β) :=
        match dictGet st "saved_query" with
        | none => .ok q
        | some none => .error .assertion     -- `assert saved_query is not None`
        | some (some s) => .ok (s ++ q)
      match allqE with
      | .error e => .error e
      | .ok allq =>
          let numReady := allq.length - cfg.rightWindow
          let ready := allq.take numReady
          let notReady := allq.drop numReady
          let tgt_len := ready.length
          let am2 : Option (List μ) := attn_mask.map (fun m =>
            pySliceRows m ((m.length : Int) - (allq.length : Int))
              ((m.length : Int) - (notReady.length : Int)))
          let residual := ready
          let qn := preNormApply cfg ready
          let k0 := qn.map cfg.linear2k
          let v0 := qn.map cfg.linear2v
          let kE : Except Err (List β) :=
            match dictGet st "saved_key" with
            | none => .ok k0
            | some none => .error .assertion -- `assert saved_key is not None`
            | some (some s) => .ok (s ++ k0)
          match kE with
          | .error e => .error e
          | .ok k =>
              let vE : Except Err (List β) :=
                match dictGet st "saved_value" with
                | none => .ok v0
                | some none => .error .assertion
                | some (some s) => .ok (s ++ v0)
              match vE with
              | .error e => .error e
              | .ok v =>
                  -- `assert v.size(0) == k.size(0)`
                  if v.length ≠ k.length then .error .assertion else
                  let st' := dictSet (dictSet (dictSet st
                      "saved_query" (some notReady))
                      "saved_key" (some k))
                      "saved_value" (some v)
                  let inc' := dictSet inc "attn_state" st'
                  match am2 with
                  | some m =>
                      if m.length ≠ tgt_len then .error .attnMaskShape else
                      .ok (((attnRows cfg qn k v (some m) none).zip residual).map
                            (fun r => postRow cfg r.1 r.2), some inc')
                  | none =>
                      .ok (((attnRows cfg qn k v none none).zip residual).map
                            (fun r => postRow cfg r.1 r.2), some inc')

end SRUpp

namespace SRUpp

/-! ## Recurrent cell (`SRUppTransducerCell`)

The cell wraps a transform module; its `forward` (source lines 372–419)
defaults the carry, invokes the transform, short-circuits on an empty `U` and
otherwise runs the elementwise recurrence `SRUCell.apply_recurrence`.  The
recurrence itself lives in the `sru` package, outside `src/`, so it is
modelled from the spec below. -/

/-- Modelled from the spec: `SRUCell.apply_recurrence` is part of this
repository's `sru` package but not under `src/`.  Per spec §4.4 step 5, the
cell runs "the elementwise gated recurrence over `U`, the recurrence's static
weight, the original chunk (used as the highway/skip path), the carry, and the
dropout mask, producing the new hidden sequence and the new carry", and per
§4.4 the "hidden state at timestep t depends on timestep t-1's carry".  The
per-timestep gate math is out of the spec's scope ("interface, not
algorithm-for-reimplementation"), so it is abstracted as `step`, consuming the
timestep's `U` row, the positionally corresponding row of the original chunk
(the highway/skip input) and the incoming carry, and producing the hidden row
and the outgoing carry; the static weight and the (inference-mode, identity)
dropout mask are absorbed into `step`. -/
def applyRecurrence {α γ δ σ : Type} (step : γ → α → σ → δ × σ) :
    List γ → List α → σ → List δ × σ
  | [], _, c => ([], c)
  | _ :: _, [], c => ([], c)
  | u :: us, x :: xs, c =>
      let hc := step u x c
      let rest := applyRecurrence step us xs hc.2
      (hc.1 :: rest.1, rest.2)

/-- Forward method of `SRUppTransducerCell` (source lines 372–419), generic
over the wrapped transform module (attention or linear variant) exactly as the
cell is.  `zeroCarry` models `torch.zeros(batch_size, output_size)`; the
dimensionality of the input is fixed by the embedding's types, and dropout is
identity (inference).  When the transform returns an empty `U`
(`U.numel() == 0`), the cell returns an empty hidden output, the carry, and
the updated incremental state without touching the recurrence. -/
def cellForward {α β γ δ σ μ π : Type}
    (transform : List α → Option (List π) → Option (List μ) →
      Option (IncState β) → Except Err (List γ × Option (IncState β)))
    (step : γ → α → σ → δ × σ) (zeroCarry : σ)
    (input : List α) (c0 : Option σ) (mask_pad : Option (List π))
    (attn_mask : Option (List μ)) (incr : Option (IncState β)) :
    Except Err (List δ × σ × Option (IncState β)) :=
  let c := c0.getD zeroCarry
  match transform input mask_pad attn_mask incr with
  | .error e => .error e
  | .ok (U, inc') =>
      if U.isEmpty then .ok ([], c, inc')
      else
        let r := applyRecurrence step U input c
        .ok (r.1, r.2, inc')

/-! ## Session drivers

Per spec §3, a streaming session starts from a fresh empty incremental state,
mutates it call by call, and threads the carry explicitly; each call passes no
pad mask and no attention mask.  The drivers below run such a session and
collect the per-call outputs. -/

/-- Session driver for a transform module alone: runs one streaming call per
chunk, threading the incremental state, and collects the per-call outputs. -/
def streamTransform {α β γ μ π : Type}
    (transform : List α → Option (List π) → Option (List μ) →
      Option (IncState β) → Except Err (List γ × Option (IncState β))) :
    List (List α) → IncState β → Except Err (List (List γ) × IncState β)
  | [], inc => .ok ([], inc)
  | ch :: rest, inc =>
      match transform ch none none (some inc) with
      | .error e => .error e
      | .ok (out, inc') =>
          match streamTransform transform rest (inc'.getD []) with
          | .error e => .error e
          | .ok (outs, incF) => .ok (out :: outs, incF)

/-- Final incremental state of a transform streaming session (`none` when some
call of the session fails). -/
def sessionFinalState {α β γ μ π : Type}
    (transform : List α → Option (List π) → Option (List μ) →
      Option (IncState β) → Except Err (List γ × Option (IncState β))) :
    List (List α) → IncState β → Option (IncState β)
  | [], inc => some inc
  | ch :: rest, inc =>
      match transform ch none none (some inc) with
      | .error _ => none
      | .ok (_, inc') => sessionFinalState transform rest (inc'.getD [])

/-- Session driver for the cell: one `cellForward` per chunk, incremental
state and carry threaded, hidden chunks concatenated. -/
def streamCell {α β γ δ σ μ π : Type}
    (transform : List α → Option (List π) → Option (List μ) →
      Option (IncState β) → Except Err (List γ × Option (IncState β)))
    (step : γ → α → σ → δ × σ) (zeroCarry : σ) :
    List (List α) → IncState β → σ → Except Err (List δ × σ × IncState β)
  | [], inc, c => .ok ([], c, inc)
  | ch :: rest, inc, c =>
      match cellForward transform step zeroCarry ch (some c) none none (some inc) with
      | .error e => .error e
      | .ok (h, c', inc') =>
          match streamCell transform step zeroCarry rest (inc'.getD []) c' with
          | .error e => .error e
          | .ok (hs, cF, incF) => .ok (h ++ hs, cF, incF)

/-- Hidden sequence and final carry of a full streaming session started from
the fresh empty incremental state and the zero carry (`none` → zeros). -/
def streamCellHC {α β γ δ σ μ π : Type}
    (transform : List α → Option (List π) → Option (List μ) →
      Option (IncState β) → Except Err (List γ × Option (IncState β)))
    (step : γ → α → σ → δ × σ) (zeroCarry : σ) (chunks : List (List α)) :
    Option (List δ × σ) :=
  match streamCell transform step zeroCarry chunks [] zeroCarry with
  | .ok (h, c, _) => some (h, c)
  | .error _ => none

/-- Hidden sequence and final carry of one full non-streaming call
(`incremental_state = None`, `c0 = None`). -/
def fullCellHC {α β γ δ σ μ π : Type}
    (transform : List α → Option (List π) → Option (List μ) →
      Option (IncState β) → Except Err (List γ × Option (IncState β)))
    (step : γ → α → σ → δ × σ) (zeroCarry : σ) (input : List α) :
    Option (List δ × σ) :=
  match cellForward transform step zeroCarry input none none none none with
  | .ok (h, c, _) => some (h, c)
  | .error _ => none

/-- The linear transform variant packaged with the transform-module calling
convention used by the cell. -/
def linTransform {α β γ μ π : Type} (cfg : LinearCfg α β γ) :
    List α → Option (List π) → Option (List μ) →
      Option (IncState β) → Except Err (List γ × Option (IncState β)) :=
  fun input mp am inc => linearForward cfg input mp am inc

/-- The attention transform variant packaged with the transform-module calling
convention used by the cell. -/
def attnTransform {α β γ μ π : Type} (cfg : AttnCfg α β γ μ π) :
    List α → Option (List π) → Option (List μ) →
      Option (IncState β) → Except Err (List γ × Option (IncState β)) :=
  fun input mp am inc => attnForward cfg input mp am inc

/-! ## Canonical session states and extractors -/

/-- Incremental state of a linear-variant streaming session after at least one
call: a single `"attn_state"` record holding the held-back queries. -/
def mkLinState {β : Type} (s : List β) : IncState β :=
  [("attn_state", [("saved_query", some s)])]

/-- Incremental state of an attention-variant streaming session after at least
one call: held-back queries plus the full key/value histories, in the
insertion order the source produces. -/
def mkAttnState {β : Type} (sq sk sv : List β) : IncState β :=
  [("attn_state", [("saved_query", some sq), ("saved_key", some sk),
                   ("saved_value", some sv)])]

/-- Stored `saved_query` tensor at the end of a linear-variant session started
from the fresh empty state, when the session succeeds and the slot holds a
tensor. -/
def linFinalSaved {α β γ μ π : Type} (cfg : LinearCfg α β γ)
    (chunks : List (List α)) : Option (List β) :=
  match sessionFinalState (μ := μ) (π := π) (linTransform cfg) chunks [] with
  | some inc =>
      match getSlot inc "saved_query" with
      | some (some s) => some s
      | _ => none
  | none => none

/-- Stored slot tensor at the end of an attention-variant session started from
the fresh empty state. -/
def attnFinalSlot {α β γ μ π : Type} (cfg : AttnCfg α β γ μ π)
    (chunks : List (List α)) (name : String) : Option (List β) :=
  match sessionFinalState (attnTransform cfg) chunks [] with
  | some inc =>
      match getSlot inc name with
      | some (some s) => some s
      | _ => none
  | none => none

/-- Per-call ready counts of a streaming session (spec §4.1): `h` is the
number of held-back timesteps entering the call, each chunk length `l` yields
`max 0 (h + l - right_window)` ready timesteps and `min (h + l) w` newly
held-back ones. -/
def readyLens (w : Nat) : Nat → List Nat → List Nat
  | _, [] => []
  | h, l :: ls => ((h + l) - w) :: readyLens w (min (h + l) w) ls

/-- Per-call ready output lengths of a transform streaming session started
from the fresh empty state (`none` when some call fails). -/
def sessionReadyLens {α β γ μ π : Type}
    (transform : List α → Option (List π) → Option (List μ) →
      Option (IncState β) → Except Err (List γ × Option (IncState β)))
    (chunks : List (List α)) : Option (List Nat) :=
  match streamTransform transform chunks [] with
  | .ok (outs, _) => some (outs.map List.length)
  | .error _ => none

end SRUpp

namespace SRUpp

/-! ## Concrete instantiations over ℤ (used by witnesses and counterexamples)

Per-timestep slices are instantiated as integers (batch = 1, one feature,
integer-valued weights), masks rows as integers / booleans. -/

/-- Linear-variant configuration with `right_window = 2` used for the concrete
streaming scenario of spec §8 item 7. -/
def linCfgW2 : LinearCfg Int Int Int :=
  { linear1 := fun x => 2 * x
    layerNorm := none
    linear2 := fun x => x + 1
    rightWindow := 2 }

/-- Linear-variant configuration with `right_window = 1` used for the
chunk-invariance counterexample. -/
def linCfgW1 : LinearCfg Int Int Int :=
  { linear1 := id
    layerNorm := none
    linear2 := id
    rightWindow := 1 }

/-- Linear-variant configuration with `right_window = 0`. -/
def linCfgW0 : LinearCfg Int Int Int :=
  { linear1 := fun x => x + 3
    layerNorm := some (fun x => 2 * x)
    linear2 := fun x => x - 1
    rightWindow := 0 }

/-- Attention-variant configuration with `right_window = 2` over ℤ. -/
def attnCfgW2 : AttnCfg Int Int Int Int Bool :=
  { linear1 := fun x => x + 1
    layerNorm := some (fun x => 3 * x)
    normalizeAfter := false
    linear2k := fun x => 2 * x
    linear2v := fun x => x - 5
    combine := fun q ks vs am _ => q + ks.sum - vs.sum + am.getD 0
    rezero := fun a r => a + 2 * r
    linear3 := fun x => x * 2
    rightWindow := 2 }

/-- Gated-recurrence step instance over ℤ for the counterexample: the hidden
row depends on the `U` row, the highway row and the carry, the next carry on
the `U` row and the carry. -/
def stepZ (u x c : Int) : Int × Int := (u + x + c, u + c)

end SRUpp


namespace SRUpp

/-! ## Dictionary lemmas -/

@[simp] theorem dictGet_dictSet_self {v : Type} (d : List (String × v)) (k : String)
    (x : v) : dictGet (dictSet d k x) k = some x := by
  induction d with
  | nil => simp [dictGet, dictSet]
  | cons p rest ih =>
      by_cases h : p.1 = k
      · simp [dictGet, dictSet, h]
      · simp [dictGet, dictSet, h, ih]

@[simp] theorem dictGet_dictSet_ne {v : Type} (d : List (String × v)) (k k' : String)
    (x : v) (h : k' ≠ k) : dictGet (dictSet d k x) k' = dictGet d k' := by
  induction d with
  | nil => simp [dictGet, dictSet, Ne.symm h]
  | cons p rest ih =>
      obtain ⟨a, b⟩ := p
      by_cases hp : a = k
      · subst hp
        simp [dictGet, dictSet, Ne.symm h]
      · by_cases hp' : a = k'
        · simp [dictGet, dictSet, hp, hp', h]
        · simp [dictGet, dictSet, hp, hp', ih]

@[simp] theorem getSlot_mkLin {β : Type} (a : List β) :
    getSlot (mkLinState a) "saved_query" = some (some a) := rfl

@[simp] theorem getSlot_mkAttn_q {β : Type} (a b c : List β) :
    getSlot (mkAttnState a b c) "saved_query" = some (some a) := rfl

@[simp] theorem getSlot_mkAttn_k {β : Type} (a b c : List β) :
    getSlot (mkAttnState a b c) "saved_key" = some (some b) := rfl

@[simp] theorem getSlot_mkAttn_v {β : Type} (a b c : List β) :
    getSlot (mkAttnState a b c) "saved_value" = some (some c) := rfl

/-! ## Per-call closed forms -/

/-- Closed form of a linear-variant streaming call from a fresh (empty)
incremental state. -/
theorem linearForward_fresh {α β γ μ π : Type} (cfg : LinearCfg α β γ)
    (input : List α) :
    linearForward (μ := μ) (π := π) cfg input none none (some []) =
      .ok (((input.map cfg.linear1).take
              ((input.map cfg.linear1).length - cfg.rightWindow)).map (linPost cfg),
           some (mkLinState ((input.map cfg.linear1).drop
              ((input.map cfg.linear1).length - cfg.rightWindow)))) := rfl

/-- Closed form of a linear-variant streaming call from a canonical
mid-session state holding the saved queries `s`. -/
theorem linearForward_mkLin {α β γ μ π : Type} (cfg : LinearCfg α β γ)
    (input : List α) (s : List β) :
    linearForward (μ := μ) (π := π) cfg input none none (some (mkLinState s)) =
      .ok ((((s ++ input.map cfg.linear1).take
              ((s ++ input.map cfg.linear1).length - cfg.rightWindow)).map (linPost cfg)),
           some (mkLinState ((s ++ input.map cfg.linear1).drop
              ((s ++ input.map cfg.linear1).length - cfg.rightWindow)))) := rfl

/-- Closed form of an attention-variant streaming call (no masks) from a fresh
(empty) incremental state. -/
theorem attnForward_fresh {α β γ μ π : Type} (cfg : AttnCfg α β γ μ π)
    (input : List α) :
    attnForward cfg input none none (some []) =
      let allq := input.map cfg.linear1
      let numReady := allq.length - cfg.rightWindow
      let ready := allq.take numReady
      let qn := preNormApply cfg ready
      let k := qn.map cfg.linear2k
      let v := qn.map cfg.linear2v
      .ok (((attnRows cfg qn k v none none).zip ready).map
            (fun r => postRow cfg r.1 r.2),
           some (mkAttnState (allq.drop numReady) k v)) := by
  have h1 : dictGet ([] : IncState β) "attn_state" = none := rfl
  have hlen : ¬ ((List.map cfg.linear2v (preNormApply cfg
        (List.take (List.length (List.map cfg.linear1 input) - cfg.rightWindow)
          (List.map cfg.linear1 input)))).length
      ≠ (List.map cfg.linear2k (preNormApply cfg
        (List.take (List.length (List.map cfg.linear1 input) - cfg.rightWindow)
          (List.map cfg.linear1 input)))).length) := by simp
  simp only [attnForward, h1, Option.getD_none, Option.isSome_none, dictGet,
    Option.map_none', reduceIte]
  rw [if_neg hlen]
  rfl

/-- Closed form of an attention-variant streaming call (no masks) from a
canonical mid-session state with equal-length key and value histories. -/
theorem attnForward_mkAttn {α β γ μ π : Type} (cfg : AttnCfg α β γ μ π)
    (input : List α) (sq sk sv : List β) (hkv : sk.length = sv.length) :
    attnForward cfg input none none (some (mkAttnState sq sk sv)) =
      let allq := sq ++ input.map cfg.linear1
      let numReady := allq.length - cfg.rightWindow
      let ready := allq.take numReady
      let qn := preNormApply cfg ready
      let k := sk ++ qn.map cfg.linear2k
      let v := sv ++ qn.map cfg.linear2v
      .ok (((attnRows cfg qn k v none none).zip ready).map
            (fun r => postRow cfg r.1 r.2),
           some (mkAttnState (allq.drop numReady) k v)) := by
  have h1 : dictGet (mkAttnState sq sk sv) "attn_state"
      = some [("saved_query", some sq), ("saved_key", some sk),
              ("saved_value", some sv)] := rfl
  have h2 : dictGet [("saved_query", some sq), ("saved_key", some sk),
      ("saved_value", some sv)] "saved_query" = some (some sq) := rfl
  have h3 : dictGet [("saved_query", some sq), ("saved_key", some sk),
      ("saved_value", some sv)] "saved_key" = some (some sk) := rfl
  have h4 : dictGet [("saved_query", some sq), ("saved_key", some sk),
      ("saved_value", some sv)] "saved_value" = some (some sv) := rfl
  have hlen : ¬ ((sv ++ List.map cfg.linear2v (preNormApply cfg
        (List.take (List.length (sq ++ List.map cfg.linear1 input) - cfg.rightWindow)
          (sq ++ List.map cfg.linear1 input)))).length
      ≠ (sk ++ List.map cfg.linear2k (preNormApply cfg
        (List.take (List.length (sq ++ List.map cfg.linear1 input) - cfg.rightWindow)
          (sq ++ List.map cfg.linear1 input)))).length) := by simp [hkv]
  simp only [attnForward, h1, h2, h3, h4, Option.getD_some, Option.isSome_none,
    Option.map_none', reduceIte]
  rw [if_neg hlen]
  rfl

/-- Python slice with in-range non-negative bounds expressed via `drop` and
`take`. -/
theorem pySliceRows_nonneg {μ : Type} (m : List μ) (a b : Nat)
    (ha : a ≤ m.length) (hb : b ≤ m.length) :
    pySliceRows m ((m.length : Int) - (a : Int)) ((m.length : Int) - (b : Int))
      = (m.drop (m.length - a)).take ((m.length - b) - (m.length - a)) := by
  unfold pySliceRows pyIdx
  have h1 : ¬ ((m.length : Int) - (a : Int) < 0) := by omega
  have h2 : ¬ ((m.length : Int) - (b : Int) < 0) := by omega
  rw [if_neg h1, if_neg h2]
  have e1 : ((m.length : Int) - (a : Int)).toNat = m.length - a := by omega
  have e2 : ((m.length : Int) - (b : Int)).toNat = m.length - b := by omega
  rw [e1, e2, Nat.min_eq_left (Nat.sub_le _ _), Nat.min_eq_left (Nat.sub_le _ _)]
  rw [List.drop_take]

/-- Closed form of an attention-variant streaming call carrying an additive
attention mask at least as long as `all_query`: the mask is sliced to the
`num_ready` rows ending `right_window` rows before the mask's end, and the
call otherwise proceeds as without a mask. -/
theorem attnForward_mkAttn_mask {α β γ μ π : Type} (cfg : AttnCfg α β γ μ π)
    (input : List α) (sq sk sv : List β) (m : List μ)
    (hkv : sk.length = sv.length)
    (hm : (sq ++ input.map cfg.linear1).length ≤ m.length) :
    attnForward cfg input none (some m) (some (mkAttnState sq sk sv)) =
      .ok (((attnRows cfg
          (preNormApply cfg ((sq ++ input.map cfg.linear1).take
            ((sq ++ input.map cfg.linear1).length - cfg.rightWindow)))
          (sk ++ (preNormApply cfg ((sq ++ input.map cfg.linear1).take
            ((sq ++ input.map cfg.linear1).length - cfg.rightWindow))).map cfg.linear2k)
          (sv ++ (preNormApply cfg ((sq ++ input.map cfg.linear1).take
            ((sq ++ input.map cfg.linear1).length - cfg.rightWindow))).map cfg.linear2v)
          (some ((m.drop (m.length - (sq ++ input.map cfg.linear1).length)).take
            ((sq ++ input.map cfg.linear1).length - cfg.rightWindow)))
          none).zip
          ((sq ++ input.map cfg.linear1).take
            ((sq ++ input.map cfg.linear1).length - cfg.rightWindow))).map
          (fun r => postRow cfg r.1 r.2),
        some (mkAttnState
          ((sq ++ input.map cfg.linear1).drop
            ((sq ++ input.map cfg.linear1).length - cfg.rightWindow))
          (sk ++ (preNormApply cfg ((sq ++ input.map cfg.linear1).take
            ((sq ++ input.map cfg.linear1).length - cfg.rightWindow))).map cfg.linear2k)
          (sv ++ (preNormApply cfg ((sq ++ input.map cfg.linear1).take
            ((sq ++ input.map cfg.linear1).length - cfg.rightWindow))).map cfg.linear2v))) := by
  have h1 : dictGet (mkAttnState sq sk sv) "attn_state"
      = some [("saved_query", some sq), ("saved_key", some sk),
              ("saved_value", some sv)] := rfl
  have h2 : dictGet [("saved_query", some sq), ("saved_key", some sk),
      ("saved_value", some sv)] "saved_query" = some (some sq) := rfl
  have h3 : dictGet [("saved_query", some sq), ("saved_key", some sk),
      ("saved_value", some sv)] "saved_key" = some (some sk) := rfl
  have h4 : dictGet [("saved_query", some sq), ("saved_key", some sk),
      ("saved_value", some sv)] "saved_value" = some (some sv) := rfl
  have hlen : ¬ ((sv ++ List.map cfg.linear2v (preNormApply cfg
        (List.take (List.length (sq ++ List.map cfg.linear1 input) - cfg.rightWindow)
          (sq ++ List.map cfg.linear1 input)))).length
      ≠ (sk ++ List.map cfg.linear2k (preNormApply cfg
        (List.take (List.length (sq ++ List.map cfg.linear1 input) - cfg.rightWindow)
          (sq ++ List.map cfg.linear1 input)))).length) := by simp [hkv]
  have hb : (List.drop (List.length (sq ++ List.map cfg.linear1 input) - cfg.rightWindow)
      (sq ++ List.map cfg.linear1 input)).length ≤ m.length := by
    simp only [List.length_drop]
    omega
  have hslice := pySliceRows_nonneg m (sq ++ List.map cfg.linear1 input).length
    (List.drop (List.length (sq ++ List.map cfg.linear1 input) - cfg.rightWindow)
      (sq ++ List.map cfg.linear1 input)).length hm hb
  have hidx : (m.length - (List.drop (List.length (sq ++ List.map cfg.linear1 input)
        - cfg.rightWindow) (sq ++ List.map cfg.linear1 input)).length)
      - (m.length - (sq ++ List.map cfg.linear1 input).length)
      = (sq ++ List.map cfg.linear1 input).length - cfg.rightWindow := by
    simp only [List.length_drop]
    omega
  rw [hidx] at hslice
  have hshape : ¬ (((m.drop (m.length - (sq ++ List.map cfg.linear1 input).length)).take
        ((sq ++ List.map cfg.linear1 input).length - cfg.rightWindow)).length
      ≠ (List.take (List.length (sq ++ List.map cfg.linear1 input) - cfg.rightWindow)
          (sq ++ List.map cfg.linear1 input)).length) := by
    simp only [ne_eq, not_not, List.length_take, List.length_drop]
    omega
  simp only [attnForward, h1, h2, h3, h4, Option.getD_some, Option.isSome_none,
    Option.map_some', reduceIte]
  rw [if_neg hlen, hslice, if_neg hshape]
  rfl

/-! ## Recurrence and cell lemmas -/

/-- Threading the recurrence through a concatenation: when the first `U`
block is aligned with the first input block, the fold splits with the carry
threaded through. -/
theorem applyRecurrence_append {α γ δ σ : Type} (step : γ → α → σ → δ × σ)
    (U1 : List γ) (x1 : List α) (U2 : List γ) (x2 : List α) (c : σ)
    (h : U1.length = x1.length) :
    applyRecurrence step (U1 ++ U2) (x1 ++ x2) c =
      ((applyRecurrence step U1 x1 c).1 ++
         (applyRecurrence step U2 x2 (applyRecurrence step U1 x1 c).2).1,
       (applyRecurrence step U2 x2 (applyRecurrence step U1 x1 c).2).2) := by
  induction U1 generalizing x1 c with
  | nil =>
      have hx : x1 = [] := by
        cases x1 with
        | nil => rfl
        | cons a l => simp at h
      subst hx
      simp [applyRecurrence]
  | cons u us ih =>
      cases x1 with
      | nil => simp at h
      | cons x xs =>
          simp only [List.cons_append, applyRecurrence, List.append_eq]
          rw [ih xs (step u x c).2 (by simpa using h)]

/-- Successful cell call in terms of the transform's output: when the
transform succeeds, the cell's result is the recurrence fold over `U` and the
chunk (the empty-`U` short circuit agrees with the empty fold). -/
theorem cellForward_eq {α β γ δ σ μ π : Type}
    (transform : List α → Option (List π) → Option (List μ) →
      Option (IncState β) → Except Err (List γ × Option (IncState β)))
    (step : γ → α → σ → δ × σ) (zeroCarry : σ)
    (input : List α) (c0 : Option σ) (mask_pad : Option (List π))
    (attn_mask : Option (List μ)) (incr : Option (IncState β))
    (U : List γ) (inc' : Option (IncState β))
    (h : transform input mask_pad attn_mask incr = .ok (U, inc')) :
    cellForward transform step zeroCarry input c0 mask_pad attn_mask incr =
      .ok ((applyRecurrence step U input (c0.getD zeroCarry)).1,
           (applyRecurrence step U input (c0.getD zeroCarry)).2, inc') := by
  unfold cellForward
  rw [h]
  cases U with
  | nil => simp [applyRecurrence]
  | cons u us => simp

/-! ## Linear variant with a zero look-ahead window -/

/-- Transform output of the linear variant on a full chunk: every timestep
projected, (optionally) normalized and projected again. -/
def linU {α β γ : Type} (cfg : LinearCfg α β γ) (l : List α) : List γ :=
  (l.map cfg.linear1).map (linPost cfg)

theorem linU_append {α β γ : Type} (cfg : LinearCfg α β γ) (a b : List α) :
    linU cfg (a ++ b) = linU cfg a ++ linU cfg b := by
  simp [linU]

theorem linU_length {α β γ : Type} (cfg : LinearCfg α β γ) (l : List α) :
    (linU cfg l).length = l.length := by
  simp [linU]

/-- With `right_window = 0` a streaming call from the fresh state readies the
whole chunk and holds nothing back. -/
theorem linearForward_w0_fresh {α β γ μ π : Type} (cfg : LinearCfg α β γ)
    (hw : cfg.rightWindow = 0) (input : List α) :
    linearForward (μ := μ) (π := π) cfg input none none (some []) =
      .ok (linU cfg input, some (mkLinState [])) := by
  rw [linearForward_fresh]
  rw [hw, Nat.sub_zero, List.take_length, List.drop_length]
  rfl

/-- With `right_window = 0` a streaming call from the canonical empty-saved
state readies the whole chunk and holds nothing back. -/
theorem linearForward_w0_mk {α β γ μ π : Type} (cfg : LinearCfg α β γ)
    (hw : cfg.rightWindow = 0) (input : List α) :
    linearForward (μ := μ) (π := π) cfg input none none (some (mkLinState [])) =
      .ok (linU cfg input, some (mkLinState [])) := by
  rw [linearForward_mkLin]
  simp only [List.nil_append]
  rw [hw, Nat.sub_zero, List.take_length, List.drop_length]
  rfl

/-- Streaming a linear-variant cell with `right_window = 0` over any chunk
list equals the single recurrence fold over the joined sequence. -/
theorem streamCell_lin_w0 {α β γ δ σ μ π : Type} (cfg : LinearCfg α β γ)
    (hw : cfg.rightWindow = 0) (step : γ → α → σ → δ × σ) (zc : σ)
    (chunks : List (List α)) (inc : IncState β) (c : σ)
    (hinc : inc = [] ∨ inc = mkLinState []) :
    ∃ incF, streamCell (μ := μ) (π := π) (linTransform cfg) step zc chunks inc c =
      .ok ((applyRecurrence step (linU cfg chunks.flatten) chunks.flatten c).1,
           (applyRecurrence step (linU cfg chunks.flatten) chunks.flatten c).2, incF) := by
  induction chunks generalizing inc c with
  | nil => exact ⟨inc, by simp [streamCell, applyRecurrence, linU]⟩
  | cons ch rest ih =>
      have hcall : linTransform (μ := μ) (π := π) cfg ch none none (some inc) =
          .ok (linU cfg ch, some (mkLinState [])) := by
        cases hinc with
        | inl h => rw [h]; exact linearForward_w0_fresh cfg hw ch
        | inr h => rw [h]; exact linearForward_w0_mk cfg hw ch
      have hcell := cellForward_eq (linTransform (μ := μ) (π := π) cfg) step zc ch
        (some c) none none (some inc) _ _ hcall
      obtain ⟨incF, hrest⟩ := ih (mkLinState [])
        (applyRecurrence step (linU cfg ch) ch c).2 (Or.inr rfl)
      refine ⟨incF, ?_⟩
      simp only [streamCell]
      rw [hcell]
      simp only [Option.getD_some]
      rw [hrest]
      have hsplit := applyRecurrence_append step (linU cfg ch) ch
        (linU cfg rest.flatten) rest.flatten c (linU_length cfg ch)
      simp [List.flatten_cons, linU_append, hsplit]

/-! ## Attention session closed forms -/

theorem preNormApply_nil {α β γ μ π : Type} (cfg : AttnCfg α β γ μ π) :
    preNormApply cfg [] = [] := by
  unfold preNormApply
  split <;> simp

theorem preNormApply_append {α β γ μ π : Type} (cfg : AttnCfg α β γ μ π)
    (a b : List β) :
    preNormApply cfg (a ++ b) = preNormApply cfg a ++ preNormApply cfg b := by
  unfold preNormApply
  split <;> simp

theorem preNormApply_length {α β γ μ π : Type} (cfg : AttnCfg α β γ μ π)
    (a : List β) : (preNormApply cfg a).length = a.length := by
  unfold preNormApply
  split <;> simp

/-- Invariant of a linear-variant streaming session: starting from a canonical
state whose held-back queries respect the window bound, the session succeeds
and the final held-back queries are the trailing window of all projected
queries seen. -/
theorem linSession_inv {α β γ μ π : Type} (cfg : LinearCfg α β γ)
    (chunks : List (List α)) :
    ∀ s : List β, s.length ≤ cfg.rightWindow →
    sessionFinalState (μ := μ) (π := π) (linTransform cfg) chunks (mkLinState s) =
      some (mkLinState ((s ++ (chunks.flatten).map cfg.linear1).drop
        ((s.length + (chunks.flatten).length) - cfg.rightWindow))) := by
  induction chunks with
  | nil =>
      intro s hs
      have h0 : s.length - cfg.rightWindow = 0 := by omega
      simp [sessionFinalState, h0]
  | cons ch rest ih =>
      intro s hs
      have hcall : linTransform (μ := μ) (π := π) cfg ch none none
          (some (mkLinState s)) = _ := linearForward_mkLin cfg ch s
      simp only [sessionFinalState]
      rw [hcall]
      simp only [Option.getD_some]
      have hle1 : ((s ++ ch.map cfg.linear1).drop
          ((s ++ ch.map cfg.linear1).length - cfg.rightWindow)).length
          ≤ cfg.rightWindow := by
        simp only [List.length_drop]
        omega
      rw [ih _ hle1]
      have hd1le : (s ++ ch.map cfg.linear1).length - cfg.rightWindow
          ≤ (s ++ ch.map cfg.linear1).length := Nat.sub_le _ _
      have hdropped : (s ++ ch.map cfg.linear1).drop
            ((s ++ ch.map cfg.linear1).length - cfg.rightWindow)
            ++ (rest.flatten).map cfg.linear1
          = ((s ++ ch.map cfg.linear1) ++ (rest.flatten).map cfg.linear1).drop
            ((s ++ ch.map cfg.linear1).length - cfg.rightWindow) :=
        (List.drop_append_of_le_length hd1le).symm
      have harith : s.length + ((ch :: rest).flatten).length - cfg.rightWindow
          = ((s ++ ch.map cfg.linear1).length - cfg.rightWindow)
            + (((s ++ ch.map cfg.linear1).drop
                ((s ++ ch.map cfg.linear1).length - cfg.rightWindow)).length
               + (rest.flatten).length - cfg.rightWindow) := by
        simp only [List.length_drop, List.length_append, List.length_map,
          List.flatten_cons]
        omega
      have hassoc : s ++ ((ch :: rest).flatten).map cfg.linear1
          = (s ++ ch.map cfg.linear1) ++ (rest.flatten).map cfg.linear1 := by
        rw [List.flatten_cons, List.map_append, List.append_assoc]
      have e1 : (s ++ ((ch :: rest).flatten).map cfg.linear1).drop
            (s.length + ((ch :: rest).flatten).length - cfg.rightWindow)
          = ((s ++ ch.map cfg.linear1).drop
              ((s ++ ch.map cfg.linear1).length - cfg.rightWindow)
             ++ (rest.flatten).map cfg.linear1).drop
            (((s ++ ch.map cfg.linear1).drop
                ((s ++ ch.map cfg.linear1).length - cfg.rightWindow)).length
             + (rest.flatten).length - cfg.rightWindow) := by
        rw [harith, hassoc, ← List.drop_drop, ← hdropped]
      rw [e1]

/-- Invariant of an attention-variant streaming session (no masks): starting
from a canonical state whose held-back queries respect the window bound and
whose key/value histories agree in length, the session succeeds, the final
held-back queries are the trailing window of all projected queries seen, and
the key/value histories grow by exactly the key/value projections of the
queries that became ready during the session. -/
theorem attnSession_inv {α β γ μ π : Type} (cfg : AttnCfg α β γ μ π)
    (chunks : List (List α)) :
    ∀ (sq sk sv : List β), sq.length ≤ cfg.rightWindow → sk.length = sv.length →
    sessionFinalState (attnTransform cfg) chunks (mkAttnState sq sk sv) =
      some (mkAttnState
        ((sq ++ (chunks.flatten).map cfg.linear1).drop
          ((sq.length + (chunks.flatten).length) - cfg.rightWindow))
        (sk ++ (preNormApply cfg ((sq ++ (chunks.flatten).map cfg.linear1).take
          ((sq.length + (chunks.flatten).length) - cfg.rightWindow))).map cfg.linear2k)
        (sv ++ (preNormApply cfg ((sq ++ (chunks.flatten).map cfg.linear1).take
          ((sq.length + (chunks.flatten).length) - cfg.rightWindow))).map cfg.linear2v)) := by
  induction chunks with
  | nil =>
      intro sq sk sv hsq hkv
      have h0 : sq.length - cfg.rightWindow = 0 := by omega
      simp [sessionFinalState, h0, preNormApply_nil]
  | cons ch rest ih =>
      intro sq sk sv hsq hkv
      have hcall : attnTransform cfg ch none none (some (mkAttnState sq sk sv)) = _ :=
        attnForward_mkAttn (μ := μ) (π := π) cfg ch sq sk sv hkv
      simp only [sessionFinalState]
      rw [hcall]
      simp only [Option.getD_some]
      have hle1 : ((sq ++ ch.map cfg.linear1).drop
          ((sq ++ ch.map cfg.linear1).length - cfg.rightWindow)).length
          ≤ cfg.rightWindow := by
        simp only [List.length_drop]
        omega
      have hkv1 : (sk ++ (preNormApply cfg ((sq ++ ch.map cfg.linear1).take
            ((sq ++ ch.map cfg.linear1).length - cfg.rightWindow))).map cfg.linear2k).length
          = (sv ++ (preNormApply cfg ((sq ++ ch.map cfg.linear1).take
            ((sq ++ ch.map cfg.linear1).length - cfg.rightWindow))).map cfg.linear2v).length := by
        simp [preNormApply_length, hkv]
      rw [ih _ _ _ hle1 hkv1]
      have hd1le : (sq ++ ch.map cfg.linear1).length - cfg.rightWindow
          ≤ (sq ++ ch.map cfg.linear1).length := Nat.sub_le _ _
      have hdropped : (sq ++ ch.map cfg.linear1).drop
            ((sq ++ ch.map cfg.linear1).length - cfg.rightWindow)
            ++ (rest.flatten).map cfg.linear1
          = ((sq ++ ch.map cfg.linear1) ++ (rest.flatten).map cfg.linear1).drop
            ((sq ++ ch.map cfg.linear1).length - cfg.rightWindow) :=
        (List.drop_append_of_le_length hd1le).symm
      have harith : sq.length + ((ch :: rest).flatten).length - cfg.rightWindow
          = ((sq ++ ch.map cfg.linear1).length - cfg.rightWindow)
            + (((sq ++ ch.map cfg.linear1).drop
                ((sq ++ ch.map cfg.linear1).length - cfg.rightWindow)).length
               + (rest.flatten).length - cfg.rightWindow) := by
        simp only [List.length_drop, List.length_append, List.length_map,
          List.flatten_cons]
        omega
      have hassoc : sq ++ ((ch :: rest).flatten).map cfg.linear1
          = (sq ++ ch.map cfg.linear1) ++ (rest.flatten).map cfg.linear1 := by
        rw [List.flatten_cons, List.map_append, List.append_assoc]
      have e1 : (sq ++ ((ch :: rest).flatten).map cfg.linear1).drop
            (sq.length + ((ch :: rest).flatten).length - cfg.rightWindow)
          = ((sq ++ ch.map cfg.linear1).drop
              ((sq ++ ch.map cfg.linear1).length - cfg.rightWindow)
             ++ (rest.flatten).map cfg.linear1).drop
            (((sq ++ ch.map cfg.linear1).drop
                ((sq ++ ch.map cfg.linear1).length - cfg.rightWindow)).length
             + (rest.flatten).length - cfg.rightWindow) := by
        rw [harith, hassoc, ← List.drop_drop, ← hdropped]
      have e2 : (sq ++ ((ch :: rest).flatten).map cfg.linear1).take
            (sq.length + ((ch :: rest).flatten).length - cfg.rightWindow)
          = (sq ++ ch.map cfg.linear1).take
              ((sq ++ ch.map cfg.linear1).length - cfg.rightWindow)
            ++ ((sq ++ ch.map cfg.linear1).drop
                  ((sq ++ ch.map cfg.linear1).length - cfg.rightWindow)
                ++ (rest.flatten).map cfg.linear1).take
              (((sq ++ ch.map cfg.linear1).drop
                  ((sq ++ ch.map cfg.linear1).length - cfg.rightWindow)).length
               + (rest.flatten).length - cfg.rightWindow) := by
        rw [harith, hassoc, List.take_add, List.take_append_of_le_length hd1le,
          ← hdropped]
      rw [e1, e2]
      simp [preNormApply_append, List.append_assoc]

/-- First call of a linear-variant session: the fresh empty state and the
canonical empty-saved state give the same call result. -/
theorem linSession_start {α β γ μ π : Type} (cfg : LinearCfg α β γ)
    (ch : List α) (rest : List (List α)) :
    sessionFinalState (μ := μ) (π := π) (linTransform cfg) (ch :: rest) [] =
    sessionFinalState (μ := μ) (π := π) (linTransform cfg) (ch :: rest)
      (mkLinState []) := by
  simp only [sessionFinalState]
  rw [show linTransform (μ := μ) (π := π) cfg ch none none (some []) = _ from
      linearForward_fresh cfg ch,
    show linTransform (μ := μ) (π := π) cfg ch none none (some (mkLinState [])) = _ from
      linearForward_mkLin cfg ch []]
  simp only [List.nil_append, Option.getD_some]

/-- Closed form of the final state of a linear-variant session started fresh:
the held-back queries are the trailing window of all projected queries. -/
theorem linSession_fresh {α β γ μ π : Type} (cfg : LinearCfg α β γ)
    (ch : List α) (rest : List (List α)) :
    sessionFinalState (μ := μ) (π := π) (linTransform cfg) (ch :: rest) [] =
      some (mkLinState ((((ch :: rest).flatten).map cfg.linear1).drop
        (((ch :: rest).flatten).length - cfg.rightWindow))) := by
  rw [linSession_start, linSession_inv cfg (ch :: rest) [] (by simp)]
  simp only [List.nil_append, List.length_nil, Nat.zero_add]

/-- First call of an attention-variant session: the fresh empty state and the
canonical empty state give the same call result. -/
theorem attnSession_start {α β γ μ π : Type} (cfg : AttnCfg α β γ μ π)
    (ch : List α) (rest : List (List α)) :
    sessionFinalState (attnTransform cfg) (ch :: rest) [] =
    sessionFinalState (attnTransform cfg) (ch :: rest) (mkAttnState [] [] []) := by
  simp only [sessionFinalState]
  rw [show attnTransform cfg ch none none (some []) = _ from attnForward_fresh cfg ch,
    show attnTransform cfg ch none none (some (mkAttnState [] [] [])) = _ from
      attnForward_mkAttn cfg ch [] [] [] rfl]
  simp only [List.nil_append, Option.getD_some]

/-- Closed form of the final state of an attention-variant session started
fresh: trailing-window held-back queries plus the key/value projections of
exactly the ready queries. -/
theorem attnSession_fresh {α β γ μ π : Type} (cfg : AttnCfg α β γ μ π)
    (ch : List α) (rest : List (List α)) :
    sessionFinalState (attnTransform cfg) (ch :: rest) [] =
      some (mkAttnState
        ((((ch :: rest).flatten).map cfg.linear1).drop
          (((ch :: rest).flatten).length - cfg.rightWindow))
        ((preNormApply cfg ((((ch :: rest).flatten).map cfg.linear1).take
          (((ch :: rest).flatten).length - cfg.rightWindow))).map cfg.linear2k)
        ((preNormApply cfg ((((ch :: rest).flatten).map cfg.linear1).take
          (((ch :: rest).flatten).length - cfg.rightWindow))).map cfg.linear2v)) := by
  rw [attnSession_start, attnSession_inv cfg (ch :: rest) [] [] [] (by simp) rfl]
  simp only [List.nil_append, List.length_nil, Nat.zero_add]

/-- Total ready count of a session: the per-call ready counts sum to the
total arrived minus the still-held-back window. -/
theorem readyLens_sum (w : Nat) (lens : List Nat) :
    ∀ h : Nat, h ≤ w → (readyLens w h lens).sum = h + lens.sum - w := by
  induction lens with
  | nil =>
      intro h hh
      simp only [readyLens, List.sum_nil]
      omega
  | cons l ls ih =>
      intro h hh
      simp only [readyLens, List.sum_cons]
      rw [ih (min (h + l) w) (Nat.min_le_right _ _)]
      omega

end SRUpp

namespace SRUpp

/-! ## Claim theorems -/

/-- C1 (counterexample): the claim fails as stated.  A linear-variant cell
with `right_window = 1`, fed the partition `[[1], [100]]` of the sequence
`[1, 100]` followed by one drain timestep (exactly `right_window` trailing
timesteps), produces hidden rows for the two original timesteps that differ
from the single full non-streaming call's, because the spec-modelled
recurrence pairs each `U` row with the row of the *current* chunk as the
highway input, and in streaming mode with a positive window those rows are
shifted relative to the timesteps the `U` rows belong to. -/
theorem C1_counterexample :
    ¬ ((streamCellHC (μ := Int) (π := Bool) (linTransform linCfgW1) stepZ 0
          [[1], [100], [0]]).map (fun r => (r.1.take 2, r.2))
        = fullCellHC (μ := Int) (π := Bool) (linTransform linCfgW1) stepZ 0
          [1, 100]) := by decide

/-- C1 (amended): for cells wrapping the Linear transform variant with
`right_window = 0` (so no timesteps are held back and no drain is fed), any
partition of a sequence into consecutive streaming chunks — fresh empty
incremental state at the start, carry threaded between calls — yields exactly
the hidden-state sequence and final carry of the single full non-streaming
call on the joined sequence, for every gated-recurrence step function. -/
theorem C1_chunk_invariance_linear_w0 {α β γ δ σ μ π : Type}
    (cfg : LinearCfg α β γ) (hw : cfg.rightWindow = 0)
    (step : γ → α → σ → δ × σ) (zc : σ) (chunks : List (List α)) :
    streamCellHC (μ := μ) (π := π) (linTransform cfg) step zc chunks
      = fullCellHC (μ := μ) (π := π) (linTransform cfg) step zc chunks.flatten := by
  obtain ⟨incF, hs⟩ := streamCell_lin_w0 cfg hw step zc chunks [] zc (Or.inl rfl)
  have hfull : linTransform (μ := μ) (π := π) cfg chunks.flatten none none none
      = .ok (linU cfg chunks.flatten, none) := rfl
  have hc := cellForward_eq (linTransform (μ := μ) (π := π) cfg) step zc
    chunks.flatten none none none none _ _ hfull
  simp only [streamCellHC, fullCellHC]
  rw [hs, hc]
  rfl

/-- C1 (witness): the amended theorem at a concrete configuration. -/
theorem C1_witness :
    linCfgW0.rightWindow = 0 ∧
    streamCellHC (μ := Int) (π := Bool) (linTransform linCfgW0) stepZ 0 [[1], [2, 3]]
      = fullCellHC (μ := Int) (π := Bool) (linTransform linCfgW0) stepZ 0 [1, 2, 3] :=
  ⟨rfl, C1_chunk_invariance_linear_w0 linCfgW0 rfl stepZ 0 [[1], [2, 3]]⟩

/-- C2 (counterexample): the concrete scenario's per-call ready lengths are
`[1, 3, 3, 2]` as claimed, but the final `saved_query` length is not 0 — the
two drain timesteps stay held back. -/
theorem C2_counterexample :
    sessionReadyLens (μ := Int) (π := Bool) (linTransform linCfgW2)
        [[1, 2, 3], [4, 5, 6], [7, 8, 9], [10, 11]] = some [1, 3, 3, 2]
    ∧ ¬ ((linFinalSaved (μ := Int) (π := Bool) linCfgW2
        [[1, 2, 3], [4, 5, 6], [7, 8, 9], [10, 11]]).map List.length = some 0) := by
  decide

/-- C2 (amended): every streaming call of either variant marks exactly
`num_ready = max 0 ((H_prev + L_in) - right_window)` timesteps ready (written
with truncated subtraction) — the first `num_ready` timesteps, in order, of
`saved_query ++ projected new queries` — and stores the rest as the new
`saved_query`; in the `right_window = 2` scenario with chunks of lengths
3, 3, 3, 2 the per-call ready lengths are `[1, 3, 3, 2]` and the final
`saved_query` length is 2 (the drain timesteps), not 0. -/
theorem C2_cursor_marking {α β γ μ π : Type} (cfg : LinearCfg α β γ)
    (cfgA : AttnCfg α β γ μ π) (input : List α) (s sq sk sv : List β)
    (hkv : sk.length = sv.length) :
    (linearForward (μ := μ) (π := π) cfg input none none (some []) =
      .ok (((input.map cfg.linear1).take ((0 + input.length) - cfg.rightWindow)).map
            (linPost cfg),
           some (mkLinState ((input.map cfg.linear1).drop
            ((0 + input.length) - cfg.rightWindow)))))
    ∧ (linearForward (μ := μ) (π := π) cfg input none none (some (mkLinState s)) =
      .ok ((((s ++ input.map cfg.linear1).take
              ((s.length + input.length) - cfg.rightWindow)).map (linPost cfg)),
           some (mkLinState ((s ++ input.map cfg.linear1).drop
              ((s.length + input.length) - cfg.rightWindow)))))
    ∧ (∃ out inc', attnForward cfgA input none none (some []) = .ok (out, some inc')
        ∧ out.length = (0 + input.length) - cfgA.rightWindow
        ∧ getSlot inc' "saved_query" = some (some ((input.map cfgA.linear1).drop
            ((0 + input.length) - cfgA.rightWindow))))
    ∧ (∃ out inc', attnForward cfgA input none none (some (mkAttnState sq sk sv))
          = .ok (out, some inc')
        ∧ out.length = (sq.length + input.length) - cfgA.rightWindow
        ∧ getSlot inc' "saved_query" = some (some ((sq ++ input.map cfgA.linear1).drop
            ((sq.length + input.length) - cfgA.rightWindow)))
        ∧ getSlot inc' "saved_key" = some (some (sk ++
            (preNormApply cfgA ((sq ++ input.map cfgA.linear1).take
              ((sq.length + input.length) - cfgA.rightWindow))).map cfgA.linear2k)))
    ∧ sessionReadyLens (μ := Int) (π := Bool) (linTransform linCfgW2)
        [[1, 2, 3], [4, 5, 6], [7, 8, 9], [10, 11]] = some [1, 3, 3, 2]
    ∧ (linFinalSaved (μ := Int) (π := Bool) linCfgW2
        [[1, 2, 3], [4, 5, 6], [7, 8, 9], [10, 11]]).map List.length = some 2 := by
  refine ⟨?_, ?_, ?_, ?_, by decide, by decide⟩
  · rw [linearForward_fresh]
    simp
  · rw [linearForward_mkLin]
    simp
  · refine ⟨_, _, attnForward_fresh cfgA input, ?_, ?_⟩
    · simp only [attnRows, List.length_map, List.length_zip, preNormApply_length,
        List.length_take, Nat.zero_add]
      omega
    · simp
  · refine ⟨_, _, attnForward_mkAttn cfgA input sq sk sv hkv, ?_, ?_, ?_⟩
    · simp only [attnRows, List.length_map, List.length_zip, preNormApply_length,
        List.length_take, List.length_append]
      omega
    · simp
    · simp

/-- C2 (witness): the amended theorem's call-level conjuncts at a concrete
configuration and input. -/
theorem C2_witness :
    linearForward (μ := Int) (π := Bool) linCfgW2 [1, 2] none none (some []) =
      .ok ([], some (mkLinState [2, 4])) :=
  (C2_cursor_marking linCfgW2 attnCfgW2 [1, 2] [] [] [] [] rfl).1

/-- C3 (confirmed): after every call of a streaming session of either
variant (a session is any nonempty chunk list `ch :: rest` started from the
fresh empty state), the stored `saved_query` length is exactly
`min total right_window` — at most `right_window`, equal to it once at least
`right_window` timesteps have arrived, and equal to the (smaller) total
before that. -/
theorem C3_window_bound {α β γ μ π : Type} (cfg : LinearCfg α β γ)
    (cfgA : AttnCfg α β γ μ π) (ch : List α) (rest : List (List α)) :
    ((linFinalSaved (μ := μ) (π := π) cfg (ch :: rest)).map List.length
      = some (min ((ch :: rest).flatten).length cfg.rightWindow))
    ∧ min ((ch :: rest).flatten).length cfg.rightWindow ≤ cfg.rightWindow
    ∧ ((attnFinalSlot cfgA (ch :: rest) "saved_query").map List.length
      = some (min ((ch :: rest).flatten).length cfgA.rightWindow))
    ∧ min ((ch :: rest).flatten).length cfgA.rightWindow ≤ cfgA.rightWindow := by
  refine ⟨?_, Nat.min_le_right _ _, ?_, Nat.min_le_right _ _⟩
  · simp only [linFinalSaved]
    rw [linSession_fresh]
    simp only [getSlot_mkLin, Option.map_some']
    refine congrArg some ?_
    simp only [List.length_drop, List.length_map]
    omega
  · simp only [attnFinalSlot]
    rw [attnSession_fresh]
    simp only [getSlot_mkAttn_q, Option.map_some']
    refine congrArg some ?_
    simp only [List.length_drop, List.length_map]
    omega

/-- C4 (confirmed): in attention-variant streaming sessions `saved_key` and
`saved_value` are append-only, their length after call `n` is the total
arrived minus the held-back window — which equals the sum of the per-call
`num_ready` counts over calls `1..n` — and each call's attention rows are
computed against exactly the key/value histories stored as the new
`saved_key`/`saved_value` (so `src_len` at call `n` is that length). -/
theorem C4_monotonic_growth {α β γ μ π : Type} (cfgA : AttnCfg α β γ μ π)
    (ch ch' : List α) (rest : List (List α)) (input : List α)
    (sq sk sv : List β) (hkv : sk.length = sv.length) :
    ((attnFinalSlot cfgA (ch :: rest) "saved_key").map List.length
      = some (((ch :: rest).flatten).length - cfgA.rightWindow))
    ∧ (((ch :: rest).flatten).length - cfgA.rightWindow
      = (readyLens cfgA.rightWindow 0 ((ch :: rest).map List.length)).sum)
    ∧ ((attnFinalSlot cfgA (ch :: rest) "saved_value").map List.length
      = (attnFinalSlot cfgA (ch :: rest) "saved_key").map List.length)
    ∧ (∃ k1 ext, attnFinalSlot cfgA (ch :: rest) "saved_key" = some k1
       ∧ attnFinalSlot cfgA (ch :: (rest ++ [ch'])) "saved_key" = some (k1 ++ ext))
    ∧ (attnForward cfgA input none none (some (mkAttnState sq sk sv)) =
        .ok (((attnRows cfgA
            (preNormApply cfgA ((sq ++ input.map cfgA.linear1).take
              ((sq ++ input.map cfgA.linear1).length - cfgA.rightWindow)))
            (sk ++ (preNormApply cfgA ((sq ++ input.map cfgA.linear1).take
              ((sq ++ input.map cfgA.linear1).length - cfgA.rightWindow))).map cfgA.linear2k)
            (sv ++ (preNormApply cfgA ((sq ++ input.map cfgA.linear1).take
              ((sq ++ input.map cfgA.linear1).length - cfgA.rightWindow))).map cfgA.linear2v)
            none none).zip
            ((sq ++ input.map cfgA.linear1).take
              ((sq ++ input.map cfgA.linear1).length - cfgA.rightWindow))).map
            (fun r => postRow cfgA r.1 r.2),
          some (mkAttnState
            ((sq ++ input.map cfgA.linear1).drop
              ((sq ++ input.map cfgA.linear1).length - cfgA.rightWindow))
            (sk ++ (preNormApply cfgA ((sq ++ input.map cfgA.linear1).take
              ((sq ++ input.map cfgA.linear1).length - cfgA.rightWindow))).map cfgA.linear2k)
            (sv ++ (preNormApply cfgA ((sq ++ input.map cfgA.linear1).take
              ((sq ++ input.map cfgA.linear1).length - cfgA.rightWindow))).map cfgA.linear2v)))) := by
  refine ⟨?_, ?_, ?_, ?_, attnForward_mkAttn cfgA input sq sk sv hkv⟩
  · simp only [attnFinalSlot]
    rw [attnSession_fresh]
    simp only [getSlot_mkAttn_k, Option.map_some']
    refine congrArg some ?_
    simp only [List.length_map, preNormApply_length, List.length_take]
    omega
  · rw [readyLens_sum cfgA.rightWindow _ 0 (Nat.zero_le _)]
    have : ((ch :: rest).map List.length).sum = ((ch :: rest).flatten).length := by
      simp [List.length_flatten]
    omega
  · simp only [attnFinalSlot]
    rw [attnSession_fresh]
    simp only [getSlot_mkAttn_k, getSlot_mkAttn_v, Option.map_some']
    refine congrArg some ?_
    simp [preNormApply_length]
  · simp only [attnFinalSlot]
    rw [attnSession_fresh cfgA ch rest, attnSession_fresh cfgA ch (rest ++ [ch'])]
    simp only [getSlot_mkAttn_k]
    refine ⟨_, (preNormApply cfgA (((((ch :: (rest ++ [ch'])).flatten).map cfgA.linear1).drop
        (((ch :: rest).flatten).length - cfgA.rightWindow)).take
        (((ch :: (rest ++ [ch'])).flatten).length - cfgA.rightWindow
         - (((ch :: rest).flatten).length - cfgA.rightWindow)))).map cfgA.linear2k,
      rfl, ?_⟩
    refine congrArg some ?_
    have hT' : ((ch :: (rest ++ [ch'])).flatten) = ((ch :: rest).flatten) ++ ch' := by
      simp [List.flatten_cons, List.flatten_append]
    have hQ' : ((ch :: (rest ++ [ch'])).flatten).map cfgA.linear1
        = ((ch :: rest).flatten).map cfgA.linear1 ++ ch'.map cfgA.linear1 := by
      rw [hT', List.map_append]
    have hlenQ : (((ch :: rest).flatten).map cfgA.linear1).length
        = ((ch :: rest).flatten).length := List.length_map _ _
    have hdle : ((ch :: rest).flatten).length - cfgA.rightWindow
        ≤ (((ch :: rest).flatten).map cfgA.linear1).length := by omega
    have harith : ((ch :: (rest ++ [ch'])).flatten).length - cfgA.rightWindow
        = (((ch :: rest).flatten).length - cfgA.rightWindow)
          + (((ch :: (rest ++ [ch'])).flatten).length - cfgA.rightWindow
             - (((ch :: rest).flatten).length - cfgA.rightWindow)) := by
      have : ((ch :: rest).flatten).length ≤ ((ch :: (rest ++ [ch'])).flatten).length := by
        rw [hT']
        simp
      omega
    have hsplit : (((ch :: (rest ++ [ch'])).flatten).map cfgA.linear1).take
          (((ch :: (rest ++ [ch'])).flatten).length - cfgA.rightWindow)
        = (((ch :: rest).flatten).map cfgA.linear1).take
            (((ch :: rest).flatten).length - cfgA.rightWindow)
          ++ ((((ch :: (rest ++ [ch'])).flatten).map cfgA.linear1).drop
              (((ch :: rest).flatten).length - cfgA.rightWindow)).take
            (((ch :: (rest ++ [ch'])).flatten).length - cfgA.rightWindow
             - (((ch :: rest).flatten).length - cfgA.rightWindow)) := by
      rw [harith, List.take_add]
      rw [hQ', List.take_append_of_le_length hdle]
      rw [← harith]
    rw [hsplit, preNormApply_append, List.map_append]

/-- C4 (witness): the growth law at a concrete session. -/
theorem C4_witness :
    (attnFinalSlot attnCfgW2 [[1, 2, 3], [4]] "saved_key").map List.length = some 2 :=
  (C4_monotonic_growth attnCfgW2 [1, 2, 3] [9] [[4]] [5] [] [] [] rfl).1

/-- C5 (confirmed): whenever the wrapped transform returns a zero-time-length
chunk `U`, the cell returns a zero-time-length hidden output, the carry
unchanged (the zero carry when none was supplied), and the transform's updated
incremental state; the result does not depend on the recurrence step function,
i.e. the elementwise recurrence is not invoked. -/
theorem C5_starvation_short_circuit {α β γ δ σ μ π : Type}
    (transform : List α → Option (List π) → Option (List μ) →
      Option (IncState β) → Except Err (List γ × Option (IncState β)))
    (step : γ → α → σ → δ × σ) (zc : σ) (input : List α) (c0 : Option σ)
    (mp : Option (List π)) (am : Option (List μ)) (incr inc' : Option (IncState β))
    (h : transform input mp am incr = .ok ([], inc')) :
    cellForward transform step zc input c0 mp am incr =
      .ok ([], c0.getD zc, inc') :=
  cellForward_eq transform step zc input c0 mp am incr [] inc' h

/-- C5 (witness): the very first chunk of a session shorter than
`right_window` starves the cell. -/
theorem C5_witness :
    cellForward (μ := Int) (π := Bool) (linTransform linCfgW1) stepZ 0 [5]
      none none none (some []) = .ok ([], 0, some (mkLinState [5])) :=
  C5_starvation_short_circuit (linTransform (μ := Int) (π := Bool) linCfgW1)
    stepZ 0 [5] none none none (some []) (some (mkLinState [5])) rfl

/-- C6 (confirmed): `proj_features` not divisible by `num_heads` (e.g. 10 and
3) is rejected at construction; any divisible configuration (e.g. 12 and 3)
constructs; and no call to the attention forward can ever produce the
divisibility error. -/
theorem C6_construction_validation :
    attnInitCheck 10 3 = .error .divisibility
    ∧ attnInitCheck 12 3 = .ok ()
    ∧ (∀ p h : Nat, p % h = 0 → attnInitCheck p h = .ok ())
    ∧ (∀ (α β γ μ π : Type) (cfg : AttnCfg α β γ μ π) (input : List α)
        (mp : Option (List π)) (am : Option (List μ)) (inc : Option (IncState β)),
        attnForward cfg input mp am inc ≠ .error .divisibility) := by
  refine ⟨rfl, rfl, ?_, ?_⟩
  · intro p h hph
    simp [attnInitCheck, hph]
  · intro α β γ μ π cfg input mp am inc h
    cases inc with
    | none =>
        simp only [attnForward] at h
        repeat' split at h
        all_goals simp_all
    | some i =>
        simp only [attnForward] at h
        repeat' split at h
        all_goals try simp_all
        all_goals (rename_i heq
                   split at heq <;> simp_all)

/-- C6 (witness): the divisibility rule applied at 12 and 3. -/
theorem C6_witness : 12 % 3 = 0 ∧ attnInitCheck 12 3 = .ok () :=
  ⟨by decide, (C6_construction_validation.2.2.1 12 3 (by decide))⟩

/-- C7 (confirmed): a non-null pad mask together with a non-null incremental
state makes either transform variant — and hence the cell wrapping it — fail
with the assertion error, producing no output and no state. -/
theorem C7_mask_contract {α β γ δ σ μ π : Type} (cfg : LinearCfg α β γ)
    (cfgA : AttnCfg α β γ μ π) (step : γ → α → σ → δ × σ) (zc : σ)
    (input : List α) (p : List π) (am : Option (List μ)) (inc : IncState β)
    (c0 : Option σ) :
    linearForward (μ := μ) cfg input (some p) am (some inc) = .error .assertion
    ∧ attnForward cfgA input (some p) am (some inc) = .error .assertion
    ∧ cellForward (linTransform cfg) step zc input c0 (some p) am (some inc)
        = .error .assertion
    ∧ cellForward (attnTransform cfgA) step zc input c0 (some p) am (some inc)
        = .error .assertion :=
  ⟨rfl, rfl, rfl, rfl⟩

/-- C8 (confirmed): in a masked streaming call the mask slice starts at row
`len(mask) - len(all_query)` and stops at row `len(mask) - len(new
saved_query)`, has exactly `num_ready` rows, aligns with the ready queries by
absolute timestep, and is exactly what the forward call feeds to the attention
rows (provided the mask covers `all_query`). -/
theorem C8_mask_alignment {α β γ μ π : Type} (cfg : AttnCfg α β γ μ π)
    (input : List α) (sq sk sv : List β) (m : List μ)
    (hkv : sk.length = sv.length)
    (hm : (sq ++ input.map cfg.linear1).length ≤ m.length) :
    (pySliceRows m ((m.length : Int) - ((sq ++ input.map cfg.linear1).length : Int))
        ((m.length : Int) - (((sq ++ input.map cfg.linear1).drop
          ((sq ++ input.map cfg.linear1).length - cfg.rightWindow)).length : Int))
      = (m.drop (m.length - (sq ++ input.map cfg.linear1).length)).take
          ((sq ++ input.map cfg.linear1).length - cfg.rightWindow))
    ∧ ((m.drop (m.length - (sq ++ input.map cfg.linear1).length)).take
          ((sq ++ input.map cfg.linear1).length - cfg.rightWindow)).length
        = (sq ++ input.map cfg.linear1).length - cfg.rightWindow
    ∧ (∀ i, i < (sq ++ input.map cfg.linear1).length - cfg.rightWindow →
        ((m.drop (m.length - (sq ++ input.map cfg.linear1).length)).take
          ((sq ++ input.map cfg.linear1).length - cfg.rightWindow))[i]?
        = m[(m.length - (sq ++ input.map cfg.linear1).length) + i]?)
    ∧ attnForward cfg input none (some m) (some (mkAttnState sq sk sv)) =
      .ok (((attnRows cfg
          (preNormApply cfg ((sq ++ input.map cfg.linear1).take
            ((sq ++ input.map cfg.linear1).length - cfg.rightWindow)))
          (sk ++ (preNormApply cfg ((sq ++ input.map cfg.linear1).take
            ((sq ++ input.map cfg.linear1).length - cfg.rightWindow))).map cfg.linear2k)
          (sv ++ (preNormApply cfg ((sq ++ input.map cfg.linear1).take
            ((sq ++ input.map cfg.linear1).length - cfg.rightWindow))).map cfg.linear2v)
          (some ((m.drop (m.length - (sq ++ input.map cfg.linear1).length)).take
            ((sq ++ input.map cfg.linear1).length - cfg.rightWindow)))
          none).zip
          ((sq ++ input.map cfg.linear1).take
            ((sq ++ input.map cfg.linear1).length - cfg.rightWindow))).map
          (fun r => postRow cfg r.1 r.2),
        some (mkAttnState
          ((sq ++ input.map cfg.linear1).drop
            ((sq ++ input.map cfg.linear1).length - cfg.rightWindow))
          (sk ++ (preNormApply cfg ((sq ++ input.map cfg.linear1).take
            ((sq ++ input.map cfg.linear1).length - cfg.rightWindow))).map cfg.linear2k)
          (sv ++ (preNormApply cfg ((sq ++ input.map cfg.linear1).take
            ((sq ++ input.map cfg.linear1).length - cfg.rightWindow))).map cfg.linear2v))) := by
  refine ⟨?_, ?_, ?_, attnForward_mkAttn_mask cfg input sq sk sv m hkv hm⟩
  · have hb : ((sq ++ input.map cfg.linear1).drop
        ((sq ++ input.map cfg.linear1).length - cfg.rightWindow)).length ≤ m.length := by
      simp only [List.length_drop]
      omega
    have hslice := pySliceRows_nonneg m (sq ++ input.map cfg.linear1).length
      ((sq ++ input.map cfg.linear1).drop
        ((sq ++ input.map cfg.linear1).length - cfg.rightWindow)).length hm hb
    have hidx : (m.length - ((sq ++ input.map cfg.linear1).drop
          ((sq ++ input.map cfg.linear1).length - cfg.rightWindow)).length)
        - (m.length - (sq ++ input.map cfg.linear1).length)
        = (sq ++ input.map cfg.linear1).length - cfg.rightWindow := by
      simp only [List.length_drop]
      omega
    rw [hidx] at hslice
    exact hslice
  · simp only [List.length_take, List.length_drop]
    omega
  · intro i hi
    rw [List.getElem?_take_of_lt hi, List.getElem?_drop]

/-- C8 (witness): the slice has exactly `num_ready` rows on a concrete call. -/
theorem C8_witness :
    ((([10, 20, 30, 40] : List Int).drop 1).take 1).length = 1 :=
  (C8_mask_alignment attnCfgW2 [1, 2, 3] [] [] [] [10, 20, 30, 40] rfl
    (by decide)).2.1

/-- C9 (confirmed): a cached slot that is present in the attention state but
holds no tensor (Python `None`) — `saved_query`, `saved_key` or `saved_value`
read "under the assumption that it must already exist" — makes the call fail
with the assertion error before producing output or writing the state; the
failures happen in the source's reading order. -/
theorem C9_missing_slot {α β γ μ π : Type} (cfg : AttnCfg α β γ μ π)
    (input : List α) (am : Option (List μ)) (inc : IncState β) (st : StateDict β)
    (hst : dictGet inc "attn_state" = some st) :
    (dictGet st "saved_query" = some none →
      attnForward cfg input none am (some inc) = .error .assertion)
    ∧ (∀ sq : List β, dictGet st "saved_query" = some (some sq) →
        dictGet st "saved_key" = some none →
        attnForward cfg input none am (some inc) = .error .assertion)
    ∧ (∀ sq sk : List β, dictGet st "saved_query" = some (some sq) →
        dictGet st "saved_key" = some (some sk) →
        dictGet st "saved_value" = some none →
        attnForward cfg input none am (some inc) = .error .assertion) := by
  refine ⟨?_, ?_, ?_⟩
  · intro hq
    simp only [attnForward, hst, Option.getD_some, hq, Option.isSome_none, reduceIte]
    simp
  · intro sq hq hk
    simp only [attnForward, hst, Option.getD_some, hq, hk, Option.isSome_none,
      reduceIte]
    simp
  · intro sq sk hq hk hv
    simp only [attnForward, hst, Option.getD_some, hq, hk, hv, Option.isSome_none,
      reduceIte]
    simp

/-- C9 (witness): a state whose `saved_query` slot is present but null. -/
theorem C9_witness :
    attnForward attnCfgW2 [1] none none
        (some [("attn_state", [("saved_query", none)])]) = .error .assertion :=
  (C9_missing_slot attnCfgW2 [1] none [("attn_state", [("saved_query", none)])]
    [("saved_query", none)] rfl).1 rfl

/-- C10 (confirmed): after any successful streaming call, the attention
variant leaves `saved_query`, `saved_key` and `saved_value` present and
non-null with the key and value histories of equal time-length, while the
linear variant only (re)writes `saved_query`, leaving the `saved_key` and
`saved_value` slots exactly as they were (in particular never creating them);
in both variants the returned state is the input mapping updated in place at
`"attn_state"` only — every other top-level entry is preserved. -/
theorem C10_state_slots {α β γ μ π : Type} (cfg : LinearCfg α β γ)
    (cfgA : AttnCfg α β γ μ π) (input : List α) (mp : Option (List π))
    (am : Option (List μ)) (inc : IncState β) :
    (∀ out inc', linearForward (μ := μ) (π := π) cfg input mp am (some inc)
        = .ok (out, inc') →
      ∃ incD, inc' = some incD
        ∧ slotStoredB incD "saved_query" = true
        ∧ getSlot incD "saved_key" = getSlot inc "saved_key"
        ∧ getSlot incD "saved_value" = getSlot inc "saved_value"
        ∧ (∀ key, key ≠ "attn_state" → dictGet incD key = dictGet inc key))
    ∧ (∀ out inc', attnForward cfgA input mp am (some inc) = .ok (out, inc') →
      ∃ incD, inc' = some incD
        ∧ slotStoredB incD "saved_query" = true
        ∧ slotStoredB incD "saved_key" = true
        ∧ slotStoredB incD "saved_value" = true
        ∧ storedLen incD "saved_key" = storedLen incD "saved_value"
        ∧ (∀ key, key ≠ "attn_state" → dictGet incD key = dictGet inc key)) := by
  constructor
  · intro out inc' h
    simp only [linearForward] at h
    split at h
    · cases h
    · split at h
      · cases h
      · simp only [Except.ok.injEq, Prod.mk.injEq] at h
        obtain ⟨hout, hinc⟩ := h
        subst hinc
        refine ⟨_, rfl, ?_, ?_, ?_, ?_⟩
        · simp [slotStoredB, getSlot]
        · simp [getSlot]
        · simp [getSlot]
        · intro key hkey
          exact dictGet_dictSet_ne _ _ _ _ hkey
  · intro out inc' h
    simp only [attnForward] at h
    split at h
    · cases h
    · split at h
      · cases h
      · split at h
        · cases h
        · split at h
          · cases h
          · split at h
            · cases h
            · rename_i hguard
              have hvk := not_not.mp (by simpa using hguard)
              split at h
              · split at h
                · cases h
                · simp only [Except.ok.injEq, Prod.mk.injEq] at h
                  obtain ⟨hout, hinc⟩ := h
                  subst hinc
                  refine ⟨_, rfl, ?_, ?_, ?_, ?_, ?_⟩
                  · simp [slotStoredB, getSlot]
                  · simp [slotStoredB, getSlot]
                  · simp [slotStoredB, getSlot]
                  · simp [storedLen, getSlot, hvk]
                  · intro key hkey
                    exact dictGet_dictSet_ne _ _ _ _ hkey
              · simp only [Except.ok.injEq, Prod.mk.injEq] at h
                obtain ⟨hout, hinc⟩ := h
                subst hinc
                refine ⟨_, rfl, ?_, ?_, ?_, ?_, ?_⟩
                · simp [slotStoredB, getSlot]
                · simp [slotStoredB, getSlot]
                · simp [slotStoredB, getSlot]
                · simp [storedLen, getSlot, hvk]
                · intro key hkey
                  exact dictGet_dictSet_ne _ _ _ _ hkey

/-- C10 (witness): slot layout after a concrete successful call of the linear
variant. -/
theorem C10_witness :
    (∃ incD, (some (mkLinState [1]) : Option (IncState Int)) = some incD
      ∧ slotStoredB incD "saved_query" = true
      ∧ getSlot incD "saved_key" = getSlot ([] : IncState Int) "saved_key"
      ∧ getSlot incD "saved_value" = getSlot ([] : IncState Int) "saved_value"
      ∧ (∀ key, key ≠ "attn_state" → dictGet incD key = dictGet ([] : IncState Int) key)) :=
  (C10_state_slots linCfgW1 attnCfgW2 [1] none (none : Option (List Int)) []).1
    [] (some (mkLinState [1])) rfl

end SRUpp
